import Mathlib

/-!
# Verification of the gocxx concurrency core (Channel, Select, Context)

Shallow embedding of the gocxx library's channel engine
(`gocxx::base::ChanImpl`, gocxx/base/chan.h), select multiplexer
(`gocxx::base::Select`, gocxx/base/select.h) and context tree
(`gocxx::context`, context.cpp / context.h), together with proofs of the
spec's testable properties.

Blocking operations are modelled as single-step outcome functions: the
outcome of an attempted operation at a given channel state is either a
completed transition, a "blocked" marker (the code parks on a condition
variable), or a "panic" marker (the code throws).  All state guarded by the
per-channel mutex is carried in an explicit `ChanState`.
-/

namespace Gocxx

/-! ## Channel model (gocxx/base/chan.h, class ChanImpl<T>)

State fields mirror `ChanImpl`'s members: `bufferSize_`, `closed_`, the
unbuffered slot `sendValue_` (its `hasSendValue_` flag is `Option.isSome`),
and the buffered FIFO `queue_` (front of the C++ `std::queue` is the list
head).  The select-waiter registration lists only produce notifications and
carry no state observable through the operations modelled here. -/

structure ChanState (α : Type) where
  bufferSize : Nat
  closed : Bool
  sendValue : Option α
  queue : List α
  deriving Repr, DecidableEq

/-- Constructor `ChanImpl::ChanImpl(bufferSize)`: open channel, empty slot, empty queue. -/
def mkChan (α : Type) (bufferSize : Nat) : ChanState α :=
  { bufferSize := bufferSize, closed := false, sendValue := none, queue := [] }

/-- Outcome of one attempt of the blocking `ChanImpl::send`. -/
inductive SendOutcome (α : Type) where
  | panic (s : ChanState α)
  | blocked (s : ChanState α)
  | completed (s : ChanState α)
  deriving Repr, DecidableEq

/-- Outcome of one attempt of the blocking `ChanImpl::recv`. -/
inductive RecvOutcome (α : Type) where
  | blocked (s : ChanState α)
  | completed (v : Option α) (s : ChanState α)
  deriving Repr, DecidableEq

/-- Operation `ChanImpl::send` (blocking), one step under the mutex.
If closed: throws `"send on closed channel"`.
Unbuffered: parks the value in the slot, wakes receivers, then waits
(`while (!closed_ && hasSendValue_)`) — immediately after parking that
condition holds, so the step blocks with the value parked.
Buffered: waits while `!closed_ && queue_.size() >= bufferSize_`; when there
is room, pushes the value and wakes one receiver. -/
def sendStep {α : Type} (s : ChanState α) (v : α) : SendOutcome α :=
  if s.closed then .panic s
  else if s.bufferSize = 0 then
    .blocked { s with sendValue := some v }
  else if s.bufferSize ≤ s.queue.length then
    .blocked s
  else
    .completed { s with queue := s.queue ++ [v] }

/-- Operation `ChanImpl::recv` (blocking), one step under the mutex.
Unbuffered: waits while `!closed_ && !hasSendValue_`; returns `nullopt` when
closed with no pending value, else claims the slot and wakes the sender.
Buffered: waits while `!closed_ && queue_.empty()`; returns `nullopt` when
closed and drained, else pops the front and wakes one sender. -/
def recvStep {α : Type} (s : ChanState α) : RecvOutcome α :=
  if s.bufferSize = 0 then
    match s.sendValue with
    | none =>
      if s.closed then .completed none s
      else .blocked s
    | some v => .completed (some v) { s with sendValue := none }
  else
    match s.queue with
    | [] =>
      if s.closed then .completed none s
      else .blocked s
    | v :: rest => .completed (some v) { s with queue := rest }

/-- Operation `ChanImpl::trySend`: non-blocking send returning `Result<void>`
(`Except.error` carries the error message built by `gocxx::errors::New`). -/
def trySend {α : Type} (s : ChanState α) (v : α) :
    Except String Unit × ChanState α :=
  if s.closed then (.error "trySend on closed channel", s)
  else if s.bufferSize = 0 then
    if s.sendValue.isSome then (.error "channel busy", s)
    else (.ok (), { s with sendValue := some v })
  else
    if s.bufferSize ≤ s.queue.length then (.error "buffer full", s)
    else (.ok (), { s with queue := s.queue ++ [v] })

/-- Operation `ChanImpl::tryRecv`: non-blocking receive returning `Result<T>`. -/
def tryRecv {α : Type} (s : ChanState α) : Except String α × ChanState α :=
  if s.bufferSize = 0 then
    match s.sendValue with
    | none =>
      if s.closed then (.error "channel closed", s)
      else (.error "no data to receive", s)
    | some v => (.ok v, { s with sendValue := none })
  else
    match s.queue with
    | [] =>
      if s.closed then (.error "channel closed", s)
      else (.error "buffer empty", s)
    | v :: rest => (.ok v, { s with queue := rest })

/-- Operation `ChanImpl::close`: idempotent, only flips the closed flag (the
notifications it sends carry no state). -/
def chClose {α : Type} (s : ChanState α) : ChanState α :=
  if s.closed then s else { s with closed := true }

/-- Readiness query `ChanImpl::canSend`. -/
def canSend {α : Type} (s : ChanState α) : Bool :=
  if s.closed then false
  else if s.bufferSize = 0 then !s.sendValue.isSome
  else s.queue.length < s.bufferSize

/-- Readiness query `ChanImpl::canRecv`. -/
def canRecv {α : Type} (s : ChanState α) : Bool :=
  if s.bufferSize = 0 then s.sendValue.isSome || s.closed
  else !s.queue.isEmpty || s.closed

/-- Receive `n` times in a row with the blocking `recv`, requiring each call
to complete with a value (used to state drain-order properties). -/
def recvAll {α : Type} (s : ChanState α) : Nat → Option (List α × ChanState α)
  | 0 => some ([], s)
  | n + 1 =>
    match recvStep s with
    | .completed (some v) s' =>
      (recvAll s' n).map (fun p => (v :: p.1, p.2))
    | _ => none

/-- A single-producer program against one channel: a list of blocking
sends and receives issued in program order. -/
inductive ChanOp (α : Type) where
  | send (v : α)
  | recv
  deriving Repr, DecidableEq

/-- The values a program sends, in program order. -/
def sentOf {α : Type} : List (ChanOp α) → List α
  | [] => []
  | .send v :: ops => v :: sentOf ops
  | .recv :: ops => sentOf ops

/-- Run a single-producer program with the blocking operations, requiring
every operation to complete (no blocking, no panic, no closed-channel
`nullopt`); collects the received values in order. -/
def runOps {α : Type} (s : ChanState α) :
    List (ChanOp α) → Option (List α × ChanState α)
  | [] => some ([], s)
  | .send v :: ops =>
    match sendStep s v with
    | .completed s' => runOps s' ops
    | _ => none
  | .recv :: ops =>
    match recvStep s with
    | .completed (some v) s' =>
      (runOps s' ops).map (fun p => (v :: p.1, p.2))
    | _ => none

/-! ## Select model (gocxx/base/select.h, class Select)

One `Select.run()` polling round.  A case is abstracted to the two facts the
poll loop inspects: whether `getType()` is `"DefaultCase"` and what
`isReady()` returns at the poll.  The random draw of
`executeRandomCase` is passed in as a number `r`; the C++
`uniform_int_distribution(0, size-1)` result is modelled as `r % size`. -/

structure SelCase where
  isDefault : Bool
  ready : Bool
  deriving Repr, DecidableEq

/-- The `readyIndices` vector built by `Select::run`'s poll loop: indices of
non-default cases whose `isReady()` returned true, in case order. -/
def readyIndices (cs : List SelCase) : List Nat :=
  cs.enum.filterMap fun ic =>
    if !ic.2.isDefault && ic.2.ready then some ic.1 else none

/-- The `defaultCaseIndex` computed by the poll loop: the loop overwrites it
on each default case, so the last default case's index wins. -/
def defaultIndex (cs : List SelCase) : Option Nat :=
  cs.enum.foldl (fun acc ic => if ic.2.isDefault then some ic.1 else acc) none

/-- Method `Select::executeRandomCase`: empty → nothing; singleton → that index;
otherwise the uniformly drawn position `r % size` of `readyIndices`. -/
def executeRandomCase (ready : List Nat) (r : Nat) : Option Nat :=
  match ready with
  | [] => none
  | [i] => some i
  | _ => ready.get? (r % ready.length)

/-- One round of the `while (true)` loop in `Select::run`: returns the index
of the case whose `execute()` is called, or `none` when the invocation goes
to sleep on the condition variable (no ready case, no default). -/
def selectPoll (cs : List SelCase) (r : Nat) : Option Nat :=
  let ready := readyIndices cs
  if ready.isEmpty then
    match defaultIndex cs with
    | some i => some i
    | none => none
  else
    executeRandomCase ready r

/-! ## Context model (context.cpp / context.h)

Two views of the same source, matching its two kinds of links:

* a *world* of numbered nodes for the mutable cancellation state
  (`CancelContext`'s `canceled_`/`err_`/`done_chan_`/`children_` and the
  `Cancel`/`AddChild` fan-out), where the factory functions append fresh
  nodes and parents keep child ids; and
* an inductive parent-chain for the pure upward delegation of
  `Value` (each node strongly owns its parent pointer).

`std::any` keys are modelled as a closed sum: the three runtime types
`ValueContext::Value` can compare (`std::string`, `int`, `const char*`)
plus an opaque `other` constructor standing for every other runtime type
(identified by a type id and a value id). -/

inductive AnyKey where
  | str (s : String)
  | int (n : Int)
  | cstr (s : String)
  | other (tyId : Nat) (vId : Nat)
  deriving Repr, DecidableEq

/-- The key comparison performed inline in `ValueContext::Value`: the stored
key matches the queried key only when both have one of the three supported
runtime types and compare equal there; `const char*` keys are compared by
string content; keys of any other runtime type never match (the function
falls through to the parent even when the two `std::any`s hold equal
values). -/
def keyMatches : AnyKey → AnyKey → Bool
  | .str a, .str b => a == b
  | .int a, .int b => a == b
  | .cstr a, .cstr b => a == b
  | _, _ => false

/-- Mutable state of a `CancelContext` (also the base state of a
`TimerContext`): constructor sets `canceled_ = false`, default-constructed
reason string, `done_chan_(1)` (a capacity-1 channel), no children.
`isTimer` tags nodes made by `WithTimeout`/`WithDeadline`; their background
waiter thread is not modelled (its only effect is a later idempotent
`Cancel(DeadlineExceeded)` call). -/
structure CancelData where
  parent : Option Nat
  canceled : Bool
  err : String
  done : ChanState Bool
  children : List Nat
  isTimer : Bool
  deriving Repr, DecidableEq

/-- A node of the context tree, tagged like the C++ dynamic type. -/
inductive CtxNode (ν : Type) where
  | background
  | cancelNode (d : CancelData)
  | valueNode (parent : Option Nat) (key : AnyKey) (val : ν)
  deriving Repr, DecidableEq

/-- The heap of context nodes; a `ContextPtr` is an index into `nodes`
(`Option Nat`, `none` being a null pointer).  Fresh nodes are appended, so a
child's id is always larger than its parent's. -/
structure CtxWorld (ν : Type) where
  nodes : List (CtxNode ν)
  deriving Repr, DecidableEq

/-- The three writes `CancelContext::Cancel(reason)` performs on its own
node once it finds the node still Active: set the flag, record the reason,
close the done channel.  The parent pointer and children list are left
untouched. -/
def cancelMark (reason : String) (d : CancelData) : CancelData :=
  { d with canceled := true, err := reason, done := chClose d.done }

/-- Method `CancelContext::Cancel(reason)`: under the node's mutex, return if
already canceled, else set the flag and reason, close the done channel, and
synchronously cancel every live child (all children are modelled live; the
lazily-pruned expired-`weak_ptr` branch mutates nothing observable).  The
recursion is paid for with explicit fuel; child ids are strictly larger
than their parent's, so any fuel at least the node count computes the true
result. -/
def cancelRec {ν : Type} : Nat → CtxWorld ν → Nat → String → CtxWorld ν
  | 0, w, _, _ => w
  | fuel + 1, w, id, reason =>
    match w.nodes.get? id with
    | some (.cancelNode d) =>
      if d.canceled then w
      else
        let w2 : CtxWorld ν := ⟨w.nodes.set id (.cancelNode (cancelMark reason d))⟩
        d.children.foldl (fun acc c => cancelRec fuel acc c reason) w2
    | _ => w

/-- Entry point of `Cancel` with sufficient fuel. -/
def cancelCtx {ν : Type} (w : CtxWorld ν) (id : Nat) (reason : String) : CtxWorld ν :=
  cancelRec w.nodes.length w id reason

/-- The `CancelFunc` closure returned by `WithCancel`/`WithTimeout`: calls
`Cancel()` with the default reason `"context canceled"`. -/
def cancelFn {ν : Type} (w : CtxWorld ν) (id : Nat) : CtxWorld ν :=
  cancelCtx w id "context canceled"

/-- Method `CancelContext::AddChild`: if the parent is already canceled, cancel the
new child immediately with the parent's reason; otherwise record a weak
reference to it. -/
def addChild {ν : Type} (w : CtxWorld ν) (parentId childId : Nat) : CtxWorld ν :=
  match w.nodes.get? parentId with
  | some (.cancelNode d) =>
    if d.canceled then cancelCtx w childId d.err
    else ⟨w.nodes.set parentId
      (.cancelNode { d with children := d.children ++ [childId] })⟩
  | _ => w

/-- Query `Err()` of a node: a `CancelContext` consults only its own flag and
reason; a `ValueContext` delegates to its parent (ok when the parent
pointer is null); `Background`/`TODO` always report ok.  Fueled like
`cancelRec` because value nodes recurse upward. -/
def errRec {ν : Type} : Nat → CtxWorld ν → Nat → Except String Unit
  | 0, _, _ => .ok ()
  | fuel + 1, w, id =>
    match w.nodes.get? id with
    | some (.cancelNode d) => if d.canceled then .error d.err else .ok ()
    | some (.valueNode p _ _) =>
      match p with
      | some pid => errRec fuel w pid
      | none => .ok ()
    | _ => .ok ()

/-- Entry point of `Err` with sufficient fuel. -/
def ctxErr {ν : Type} (w : CtxWorld ν) (id : Nat) : Except String Unit :=
  errRec w.nodes.length w id

/-- The done channel of a cancel node (`CancelContext::Done`). -/
def doneChan {ν : Type} (w : CtxWorld ν) (id : Nat) : Option (ChanState Bool) :=
  match w.nodes.get? id with
  | some (.cancelNode d) => some d.done
  | _ => none

/-- Factory `WithCancel(parent)`: `none` models the `"parent context is nil"`
failure.  A fresh `CancelContext` is appended; it is registered with its
parent via `AddChild` only when `dynamic_pointer_cast<CancelContext>` of
the *direct* parent succeeds, i.e. only when the parent node is itself a
Cancel/Timer node. -/
def withCancel {ν : Type} (w : CtxWorld ν) (parent : Option Nat) :
    Option (CtxWorld ν × Nat) :=
  match parent with
  | none => none
  | some p =>
    let id := w.nodes.length
    let node : CtxNode ν := .cancelNode
      { parent := some p, canceled := false, err := "", done := mkChan Bool 1,
        children := [], isTimer := false }
    let w1 : CtxWorld ν := ⟨w.nodes ++ [node]⟩
    match w.nodes.get? p with
    | some (.cancelNode _) => some (addChild w1 p id, id)
    | _ => some (w1, id)

/-- Factories `WithTimeout(parent, d)` / `WithDeadline(parent, t)`: identical tree
construction to `WithCancel` (a `TimerContext` is a `CancelContext`), with
the timer tag set; the spawned waiter thread is not modelled (see
`CancelData.isTimer`). -/
def withTimeout {ν : Type} (w : CtxWorld ν) (parent : Option Nat) :
    Option (CtxWorld ν × Nat) :=
  match parent with
  | none => none
  | some p =>
    let id := w.nodes.length
    let node : CtxNode ν := .cancelNode
      { parent := some p, canceled := false, err := "", done := mkChan Bool 1,
        children := [], isTimer := true }
    let w1 : CtxWorld ν := ⟨w.nodes ++ [node]⟩
    match w.nodes.get? p with
    | some (.cancelNode _) => some (addChild w1 p id, id)
    | _ => some (w1, id)

/-- Factory `WithValue(parent, key, value)`: nil-parent check, then a fresh
`ValueContext` owning its parent. -/
def withValue {ν : Type} (w : CtxWorld ν) (parent : Option Nat)
    (k : AnyKey) (v : ν) : Option (CtxWorld ν × Nat) :=
  match parent with
  | none => none
  | some p => some (⟨w.nodes ++ [.valueNode (some p) k v]⟩, w.nodes.length)

/-- The world holding only the `Background()` singleton (node 0). -/
def bgWorld (ν : Type) : CtxWorld ν := ⟨[CtxNode.background]⟩

/-! ### Parent-chain view for `Value` lookups

`Value` never mutates and only walks the strong parent pointers, so it is
stated on an inductive chain isomorphic to a path of the world above. -/

inductive Ctx (ν : Type) where
  | background
  | cancelCtx (parent : Option (Ctx ν))
  | valueCtx (parent : Option (Ctx ν)) (key : AnyKey) (val : ν)
  deriving Repr

/-- Query `Value(key)`:
`BackgroundContext::Value` always fails with `"key not found"`;
`CancelContext::Value` delegates to its parent, failing with
`"key not found"` at a null parent;
`ValueContext::Value` answers with its own value when the stored key
matches (see `keyMatches`), else delegates likewise. -/
def ctxValue {ν : Type} : Ctx ν → AnyKey → Except String ν
  | .background, _ => .error "key not found"
  | .cancelCtx p, k =>
    match p with
    | some parent => ctxValue parent k
    | none => .error "key not found"
  | .valueCtx p key v, k =>
    if keyMatches key k then .ok v
    else
      match p with
      | some parent => ctxValue parent k
      | none => .error "key not found"

/-! ### Concrete context scenarios used by the claim theorems -/

/-- Scenario: `Background()` → c = `WithCancel` → `WithValue` → d = `WithCancel`;
returns the world and the ids of c and d. -/
def valueGapChain : Option (CtxWorld Nat × Nat × Nat) :=
  match withCancel (bgWorld Nat) (some 0) with
  | some (w1, c) =>
    match withValue w1 (some c) (.str "k") 7 with
    | some (w2, vid) =>
      match withCancel w2 (some vid) with
      | some (w3, d) => some (w3, c, d)
      | none => none
    | none => none
  | none => none

/-- Scenario: `Background()` → c = `WithCancel`, then e = `WithCancel(c)`,
d = `WithCancel(e)` and a `WithTimeout(c)` sibling: a depth-two chain of
registered cancel nodes below c plus a second (timer) child; returns the
world and the ids of c and d. -/
def deepChain : Option (CtxWorld Nat × Nat × Nat) :=
  match withCancel (bgWorld Nat) (some 0) with
  | some (w1, c) =>
    match withCancel w1 (some c) with
    | some (w2, e) =>
      match withCancel w2 (some e) with
      | some (w3, d) =>
        match withTimeout w3 (some c) with
        | some (w4, _) => some (w4, c, d)
        | none => none
      | none => none
    | none => none
  | none => none

/-- The world `deepChain` computes, written out (see the C1 witness). -/
def deepWorld : CtxWorld Nat :=
  ⟨[.background,
    .cancelNode ⟨some 0, false, "", mkChan Bool 1, [2, 4], false⟩,
    .cancelNode ⟨some 1, false, "", mkChan Bool 1, [3], false⟩,
    .cancelNode ⟨some 2, false, "", mkChan Bool 1, [], false⟩,
    .cancelNode ⟨some 1, false, "", mkChan Bool 1, [], true⟩]⟩

/-! ### Invariants of the context world, for the cancellation fan-out

Worlds built by the factory functions satisfy `WF`: every id a cancel node
holds in its `children_` list was handed out by `AddChild` for a
later-constructed Cancel/Timer node, so it is a strictly larger index
denoting a cancel node.  `ReachActive w c d` says d is reachable from c
through the registered `children_` links with every node on the way (c and
d included) still Active — exactly the contexts derived from c via
`WithCancel`/`WithTimeout` whose construction-time parent is a Cancel/Timer
node, before anything is canceled. -/

/-- A node is a live (Active) cancel node. -/
def ActiveAt {ν : Type} (w : CtxWorld ν) (j : Nat) : Prop :=
  ∃ a, w.nodes.get? j = some (.cancelNode a) ∧ a.canceled = false

/-- A node is a cancel node already canceled with the given reason. -/
def CanceledWith {ν : Type} (w : CtxWorld ν) (j : Nat) (reason : String) : Prop :=
  ∃ a, w.nodes.get? j = some (.cancelNode a) ∧ a.canceled = true ∧ a.err = reason

/-- One node's change under a cancel operation: untouched, or an Active
cancel node that got the `cancelMark` writes. -/
def MonoAt {ν : Type} (reason : String) (w w2 : CtxWorld ν) (j : Nat) : Prop :=
  w2.nodes.get? j = w.nodes.get? j ∨
  ∃ a, w.nodes.get? j = some (.cancelNode a) ∧ a.canceled = false ∧
    w2.nodes.get? j = some (.cancelNode (cancelMark reason a))

/-- A cancel operation only marks Active cancel nodes, with one reason. -/
def Mono {ν : Type} (reason : String) (w w2 : CtxWorld ν) : Prop :=
  ∀ j, MonoAt reason w w2 j

/-- Fan-out closure of a cancel operation: whenever it cancels an Active
node, it also cancels every registered child of that node that was Active,
with the same reason. -/
def CancelClosed {ν : Type} (reason : String) (w w2 : CtxWorld ν) : Prop :=
  ∀ j a, w.nodes.get? j = some (.cancelNode a) → a.canceled = false →
    CanceledWith w2 j reason →
    ∀ e ∈ a.children, ActiveAt w e → CanceledWith w2 e reason

/-- Well-formed registration links: every registered child id denotes a
later-constructed cancel node. -/
def WF {ν : Type} (w : CtxWorld ν) : Prop :=
  ∀ j a, w.nodes.get? j = some (.cancelNode a) →
    ∀ e ∈ a.children, j < e ∧ ∃ b, w.nodes.get? e = some (.cancelNode b)

/-- Executable check of `WF` for concrete worlds. -/
def wfCheck {ν : Type} (w : CtxWorld ν) : Bool :=
  (List.range w.nodes.length).all fun j =>
    match w.nodes.get? j with
    | some (.cancelNode a) => a.children.all fun e =>
        decide (j < e) &&
          match w.nodes.get? e with
          | some (.cancelNode _) => true
          | _ => false
    | _ => true

/-- The node d is reachable from c through registered `children_` links,
every node on the path (c and d included) being Active. -/
inductive ReachActive {ν : Type} (w : CtxWorld ν) : Nat → Nat → Prop where
  | refl (j : Nat) (a : CancelData)
      (hg : w.nodes.get? j = some (.cancelNode a))
      (hc : a.canceled = false) : ReachActive w j j
  | step (x e y : Nat) (a : CancelData)
      (hg : w.nodes.get? x = some (.cancelNode a))
      (hc : a.canceled = false) (hm : e ∈ a.children)
      (ht : ReachActive w e y) : ReachActive w x y

/-- A key of one of the three runtime types `ValueContext::Value` is able to
compare (`std::string`, `int`, `const char*`). -/
def supportedKey : AnyKey → Bool
  | .other _ _ => false
  | _ => true

/-! ## Helper lemmas about the Select poll round -/

theorem mem_readyIndices_iff (cs : List SelCase) (i : Nat) :
    i ∈ readyIndices cs ↔
      ∃ c, cs.get? i = some c ∧ c.isDefault = false ∧ c.ready = true := by
  simp only [readyIndices, List.mem_filterMap]
  constructor
  · rintro ⟨⟨j, c⟩, hmem, hif⟩
    by_cases h : (!c.isDefault && c.ready) = true
    · rw [if_pos h] at hif
      cases hif
      rw [List.mk_mem_enum_iff_get?] at hmem
      rw [Bool.and_eq_true, Bool.not_eq_true'] at h
      exact ⟨c, hmem, h.1, h.2⟩
    · rw [if_neg h] at hif
      cases hif
  · rintro ⟨c, hget, hd, hr⟩
    refine ⟨(i, c), ?_, ?_⟩
    · rw [List.mk_mem_enum_iff_get?]
      exact hget
    · simp [hd, hr]

theorem executeRandomCase_mem (ready : List Nat) (r : Nat) (i : Nat)
    (h : executeRandomCase ready r = some i) : i ∈ ready := by
  match ready with
  | [] => simp [executeRandomCase] at h
  | [a] =>
    simp only [executeRandomCase, Option.some.injEq] at h
    simp [h]
  | a :: b :: l =>
    exact List.get?_mem h

theorem executeRandomCase_exists (ready : List Nat) (hne : ready ≠ []) (r : Nat) :
    ∃ i ∈ ready, executeRandomCase ready r = some i := by
  match ready with
  | [] => exact absurd rfl hne
  | [a] => exact ⟨a, by simp, rfl⟩
  | a :: b :: l =>
    have hlt : r % (a :: b :: l).length < (a :: b :: l).length :=
      Nat.mod_lt _ (by simp)
    refine ⟨(a :: b :: l).get ⟨r % (a :: b :: l).length, hlt⟩, List.get_mem _ _ _, ?_⟩
    exact List.get?_eq_get hlt

theorem executeRandomCase_fair (ready : List Nat) (i : Nat) (h : i ∈ ready) :
    ∃ r, executeRandomCase ready r = some i := by
  match ready with
  | [] => cases h
  | [a] =>
    rcases List.mem_singleton.1 h with rfl
    exact ⟨0, rfl⟩
  | a :: b :: l =>
    refine ⟨List.indexOf i (a :: b :: l), ?_⟩
    have hlt : List.indexOf i (a :: b :: l) < (a :: b :: l).length :=
      List.indexOf_lt_length.2 h
    show (a :: b :: l).get? (List.indexOf i (a :: b :: l) % (a :: b :: l).length) = some i
    rw [Nat.mod_eq_of_lt hlt]
    rw [List.get?_eq_get hlt, List.indexOf_get]

theorem selectPoll_of_ready (cs : List SelCase) (r : Nat)
    (h : readyIndices cs ≠ []) :
    ∃ i ∈ readyIndices cs, selectPoll cs r = some i := by
  obtain ⟨i, hmem, heq⟩ := executeRandomCase_exists _ h r
  refine ⟨i, hmem, ?_⟩
  simp only [selectPoll]
  rw [if_neg (by simpa [List.isEmpty_iff] using h)]
  exact heq

theorem defaultIndex_foldl_spec (l : List (Nat × SelCase)) (acc : Option Nat) :
    l.foldl (fun a ic => if ic.2.isDefault then some ic.1 else a) acc = acc ∨
    ∃ p ∈ l, p.2.isDefault = true ∧
      l.foldl (fun a ic => if ic.2.isDefault then some ic.1 else a) acc = some p.1 := by
  induction l generalizing acc with
  | nil => exact Or.inl rfl
  | cons x xs ih =>
    rcases ih (if x.2.isDefault then some x.1 else acc) with h | ⟨p, hp, hd, he⟩
    · by_cases hx : x.2.isDefault
      · right
        exact ⟨x, List.mem_cons_self _ _, hx, by simpa [hx] using h⟩
      · left
        simpa [hx] using h
    · right
      exact ⟨p, List.mem_cons_of_mem _ hp, hd, he⟩

theorem defaultIndex_spec (cs : List SelCase) (i : Nat)
    (h : defaultIndex cs = some i) :
    ∃ c, cs.get? i = some c ∧ c.isDefault = true := by
  rcases defaultIndex_foldl_spec cs.enum none with h0 | ⟨p, hp, hd, he⟩
  · rw [defaultIndex] at h
    rw [h0] at h
    cases h
  · rw [defaultIndex] at h
    rw [he] at h
    cases h
    rw [List.mem_enum_iff_get?] at hp
    exact ⟨p.2, hp, hd⟩

/-! ## Claim theorems -/

/-- **C2**: in every `Select.run()` poll round that commits: if at least one
non-Default case is ready, the committed case is one of the ready
non-Default cases; a Default case is committed only when no non-Default
case is ready; and the committed index always denotes an existing case (the
model commits exactly the one returned index, so exactly one callback
fires). -/
theorem select_run_exactly_one_case (cs : List SelCase) (r : Nat) :
    ((∃ i c, cs.get? i = some c ∧ c.isDefault = false ∧ c.ready = true) →
      ∃ i c, selectPoll cs r = some i ∧ cs.get? i = some c ∧
        c.isDefault = false ∧ c.ready = true)
  ∧ (∀ i c, selectPoll cs r = some i → cs.get? i = some c → c.isDefault = true →
      ∀ j d, cs.get? j = some d → d.isDefault = false → d.ready = false)
  ∧ (∀ i, selectPoll cs r = some i → ∃ c, cs.get? i = some c) := by
  refine ⟨?_, ?_, ?_⟩
  · rintro ⟨i0, c0, hget, hd, hr⟩
    have hm : i0 ∈ readyIndices cs := (mem_readyIndices_iff cs i0).2 ⟨c0, hget, hd, hr⟩
    have hne : readyIndices cs ≠ [] := fun h => by rw [h] at hm; cases hm
    obtain ⟨i, hmem, heq⟩ := selectPoll_of_ready cs r hne
    obtain ⟨c, hget2, hd2, hr2⟩ := (mem_readyIndices_iff cs i).1 hmem
    exact ⟨i, c, heq, hget2, hd2, hr2⟩
  · intro i c hsel hget hdef j d hj hd
    by_cases hready : readyIndices cs = []
    · by_contra hr
      rw [Bool.not_eq_false] at hr
      have hmem : j ∈ readyIndices cs := (mem_readyIndices_iff cs j).2 ⟨d, hj, hd, hr⟩
      rw [hready] at hmem
      cases hmem
    · exfalso
      simp only [selectPoll] at hsel
      rw [if_neg (by simpa [List.isEmpty_iff] using hready)] at hsel
      have hm := executeRandomCase_mem _ r i hsel
      obtain ⟨c2, hget2, hd2, _⟩ := (mem_readyIndices_iff cs i).1 hm
      rw [hget] at hget2
      cases hget2
      rw [hdef] at hd2
      cases hd2
  · intro i hsel
    by_cases hready : readyIndices cs = []
    · simp only [selectPoll] at hsel
      rw [if_pos (by simpa [List.isEmpty_iff] using hready)] at hsel
      cases hdi : defaultIndex cs with
      | none => rw [hdi] at hsel; cases hsel
      | some k =>
        rw [hdi] at hsel
        obtain ⟨c, hc, _⟩ := defaultIndex_spec cs k hdi
        exact ⟨c, by rw [← Option.some_inj.1 hsel]; exact hc⟩
    · simp only [selectPoll] at hsel
      rw [if_neg (by simpa [List.isEmpty_iff] using hready)] at hsel
      have hm := executeRandomCase_mem _ r i hsel
      obtain ⟨c, hc, _, _⟩ := (mem_readyIndices_iff cs i).1 hm
      exact ⟨c, hc⟩

/-- Witness for C2: a ready receive case next to a default case is the one
committed. -/
theorem select_run_exactly_one_case_witness :
    ∃ i c, selectPoll [SelCase.mk false true, SelCase.mk true true] 0 = some i ∧
      [SelCase.mk false true, SelCase.mk true true].get? i = some c ∧
      c.isDefault = false ∧ c.ready = true :=
  (select_run_exactly_one_case [SelCase.mk false true, SelCase.mk true true] 0).1
    ⟨0, SelCase.mk false true, rfl, rfl, rfl⟩

/-- **C9**: every ready non-Default case is selected under some value of
the random draw, so each ready case has non-zero selection probability
under the uniform draw of `executeRandomCase`. -/
theorem select_fair_nonzero_probability (cs : List SelCase) (i : Nat) (c : SelCase)
    (h1 : cs.get? i = some c) (h2 : c.isDefault = false) (h3 : c.ready = true) :
    ∃ r, selectPoll cs r = some i := by
  have hm : i ∈ readyIndices cs := (mem_readyIndices_iff cs i).2 ⟨c, h1, h2, h3⟩
  obtain ⟨r, hr⟩ := executeRandomCase_fair _ i hm
  have hne : readyIndices cs ≠ [] := fun h => by rw [h] at hm; cases hm
  refine ⟨r, ?_⟩
  simp only [selectPoll]
  rw [if_neg (by simpa [List.isEmpty_iff] using hne)]
  exact hr

/-- Witness for C9: with two simultaneously ready cases, each of the two is
selected under some draw. -/
theorem select_fair_nonzero_probability_witness :
    (∃ r, selectPoll [SelCase.mk false true, SelCase.mk false true] r = some 0) ∧
    (∃ r, selectPoll [SelCase.mk false true, SelCase.mk false true] r = some 1) :=
  ⟨select_fair_nonzero_probability _ 0 (SelCase.mk false true) rfl rfl rfl,
   select_fair_nonzero_probability _ 1 (SelCase.mk false true) rfl rfl rfl⟩

/-- **C3**: on an open buffered channel of capacity `N > 0`, while fewer
than `N` values are queued a blocking send completes without waiting and
`trySend` succeeds, both enqueuing at the tail; with exactly `N` values
queued `trySend` fails with the would-block error `"buffer full"` leaving
the state unchanged, the blocking send waits, and it completes as soon as a
receive removes a value. -/
theorem buffered_send_capacity (α : Type) (s : ChanState α) (v : α)
    (hN : 0 < s.bufferSize) (hopen : s.closed = false) :
    (s.queue.length < s.bufferSize →
      sendStep s v = .completed { s with queue := s.queue ++ [v] } ∧
      trySend s v = (.ok (), { s with queue := s.queue ++ [v] }))
  ∧ (s.queue.length = s.bufferSize →
      trySend s v = (.error "buffer full", s) ∧
      sendStep s v = .blocked s ∧
      ∃ x s2, recvStep s = .completed (some x) s2 ∧
        sendStep s2 v = .completed { s2 with queue := s2.queue ++ [v] }) := by
  constructor
  · intro hlt
    constructor
    · simp [sendStep, hopen, Nat.pos_iff_ne_zero.1 hN, Nat.not_le.2 hlt]
    · simp [trySend, hopen, Nat.pos_iff_ne_zero.1 hN, Nat.not_le.2 hlt]
  · intro hfull
    have hle : s.bufferSize ≤ s.queue.length := Nat.le_of_eq hfull.symm
    refine ⟨?_, ?_, ?_⟩
    · simp [trySend, hopen, Nat.pos_iff_ne_zero.1 hN, hle]
    · simp [sendStep, hopen, Nat.pos_iff_ne_zero.1 hN, hle]
    · cases hq : s.queue with
      | nil =>
        rw [hq] at hfull
        exact absurd (hfull ▸ hN) (by simp)
      | cons x rest =>
        refine ⟨x, { s with queue := rest }, ?_, ?_⟩
        · simp [recvStep, Nat.pos_iff_ne_zero.1 hN, hq]
        · have hlen : rest.length < s.bufferSize := by
            rw [hq] at hfull
            simp at hfull
            omega
          simp [sendStep, hopen, Nat.pos_iff_ne_zero.1 hN, Nat.not_le.2 hlen]

/-- Witness for C3 on a capacity-2 channel holding one value, then a full
one. -/
theorem buffered_send_capacity_witness :
    (sendStep (⟨2, false, none, [5]⟩ : ChanState Nat) 6 =
      .completed ⟨2, false, none, [5, 6]⟩)
  ∧ (trySend (⟨2, false, none, [5, 6]⟩ : ChanState Nat) 7 =
      (.error "buffer full", ⟨2, false, none, [5, 6]⟩)) :=
  ⟨((buffered_send_capacity Nat ⟨2, false, none, [5]⟩ 6
      (by decide) rfl).1 (by decide)).1,
   ((buffered_send_capacity Nat ⟨2, false, none, [5, 6]⟩ 7
      (by decide) rfl).2 (by decide)).1⟩

/-- **C5**: on a closed channel, the blocking `send` throws
`"send on closed channel"` while `trySend` returns the error result
`"trySend on closed channel"` without throwing; in both cases the queue,
the slot and the closed flag are left exactly as they were. -/
theorem closed_send_faults (α : Type) (s : ChanState α) (v : α)
    (h : s.closed = true) :
    sendStep s v = .panic s ∧
    trySend s v = (.error "trySend on closed channel", s) := by
  constructor
  · simp [sendStep, h]
  · simp [trySend, h]

/-- Witness for C5 on a closed capacity-2 channel still holding a value. -/
theorem closed_send_faults_witness :
    sendStep (⟨2, true, none, [4]⟩ : ChanState Nat) 9 =
      .panic ⟨2, true, none, [4]⟩ :=
  (closed_send_faults Nat ⟨2, true, none, [4]⟩ 9 rfl).1

/-- **C10**: on an open unbuffered channel with an empty in-flight slot,
`canSend()` is true and `trySend(v)` succeeds immediately with no receiver
around, parking `v` in the slot; a subsequent blocking `recv` or `tryRecv`
returns `v` and empties the slot. -/
theorem unbuffered_trysend_parks (α : Type) (s : ChanState α) (v : α)
    (h0 : s.bufferSize = 0) (hopen : s.closed = false)
    (hempty : s.sendValue = none) :
    canSend s = true ∧
    trySend s v = (.ok (), { s with sendValue := some v }) ∧
    recvStep { s with sendValue := some v } =
      .completed (some v) { s with sendValue := none } ∧
    tryRecv { s with sendValue := some v } =
      (.ok v, { s with sendValue := none }) := by
  refine ⟨?_, ?_, ?_, ?_⟩
  · simp [canSend, h0, hopen, hempty]
  · simp [trySend, h0, hopen, hempty]
  · simp [recvStep, h0]
  · simp [tryRecv, h0]

/-- Witness for C10 on a fresh unbuffered channel. -/
theorem unbuffered_trysend_parks_witness :
    trySend (mkChan Nat 0) 9 =
      (.ok (), { mkChan Nat 0 with sendValue := some 9 }) :=
  (unbuffered_trysend_parks Nat (mkChan Nat 0) 9 rfl rfl rfl).2.1

theorem recvAll_closed_drain {α : Type} (q : List α) (s : ChanState α)
    (hb : 0 < s.bufferSize) (hc : s.closed = true) (hq : s.queue = q) :
    recvAll s q.length = some (q, { s with queue := [] }) := by
  induction q generalizing s with
  | nil =>
    cases s
    simp only at hq
    subst hq
    simp [recvAll]
  | cons x rest ih =>
    have hstep : recvStep s = .completed (some x) { s with queue := rest } := by
      simp [recvStep, Nat.pos_iff_ne_zero.1 hb, hq]
    have ih2 := ih { s with queue := rest } hb hc rfl
    simp [recvAll, hstep, ih2]

/-- **C4**: a buffered channel closed with `k` values queued hands out those
`k` values in enqueue order through the next `k` blocking receives; once
drained, `recv` permanently returns `nullopt` and `tryRecv` permanently
returns the `"channel closed"` error, neither changing the state; and no
receive on a closed channel ever blocks. -/
theorem closed_buffered_drain (α : Type) (s : ChanState α)
    (hb : 0 < s.bufferSize) (hc : s.closed = true) :
    recvAll s s.queue.length = some (s.queue, { s with queue := [] })
  ∧ recvStep { s with queue := [] } = .completed none { s with queue := [] }
  ∧ tryRecv { s with queue := [] } =
      (.error "channel closed", { s with queue := [] })
  ∧ (∀ t : ChanState α, t.closed = true →
      ∀ u : ChanState α, recvStep t ≠ .blocked u) := by
  refine ⟨recvAll_closed_drain s.queue s hb hc rfl, ?_, ?_, ?_⟩
  · simp [recvStep, Nat.pos_iff_ne_zero.1 hb, hc]
  · simp [tryRecv, Nat.pos_iff_ne_zero.1 hb, hc]
  · intro t ht u
    by_cases h0 : t.bufferSize = 0
    · cases hv : t.sendValue <;> simp [recvStep, h0, hv, ht]
    · cases hqq : t.queue <;> simp [recvStep, h0, hqq, ht]

/-- Witness for C4: a closed capacity-2 channel holding 4 then 5 drains in
that order. -/
theorem closed_buffered_drain_witness :
    recvAll (⟨2, true, none, [4, 5]⟩ : ChanState Nat) 2 =
      some ([4, 5], ⟨2, true, none, []⟩) :=
  (closed_buffered_drain Nat ⟨2, true, none, [4, 5]⟩ (by decide) rfl).1

theorem runOps_queue_eq {α : Type} (ops : List (ChanOp α)) (s : ChanState α)
    (hb : 0 < s.bufferSize) (hc : s.closed = false) (vs : List α)
    (t : ChanState α) (h : runOps s ops = some (vs, t)) :
    vs ++ t.queue = s.queue ++ sentOf ops := by
  induction ops generalizing s vs with
  | nil =>
    simp only [runOps, Option.some.injEq, Prod.mk.injEq] at h
    rw [← h.1, ← h.2]
    simp [sentOf]
  | cons op rest ih =>
    cases op with
    | send v =>
      by_cases hfull : s.bufferSize ≤ s.queue.length
      · have hstep : sendStep s v = .blocked s := by
          simp [sendStep, hc, Nat.pos_iff_ne_zero.1 hb, hfull]
        simp [runOps, hstep] at h
      · have hstep : sendStep s v = .completed { s with queue := s.queue ++ [v] } := by
          simp [sendStep, hc, Nat.pos_iff_ne_zero.1 hb, hfull]
        simp only [runOps, hstep] at h
        have := ih { s with queue := s.queue ++ [v] } hb hc vs h
        simpa [sentOf, List.append_assoc] using this
    | recv =>
      cases hq : s.queue with
      | nil =>
        have hstep : recvStep s = .blocked s := by
          simp [recvStep, Nat.pos_iff_ne_zero.1 hb, hq, hc]
        simp [runOps, hstep] at h
      | cons x restq =>
        have hstep : recvStep s = .completed (some x) { s with queue := restq } := by
          simp [recvStep, Nat.pos_iff_ne_zero.1 hb, hq]
        simp only [runOps, hstep, Option.map_eq_some'] at h
        obtain ⟨p, hp, hpe⟩ := h
        obtain ⟨hv, ht⟩ := Prod.mk.injEq .. ▸ hpe
        have := ih { s with queue := restq } hb hc p.1 (ht ▸ hp)
        rw [← hv]
        simp only [sentOf, hq]
        simpa using this

/-- **C7**: running any single-producer program of blocking sends and
receives on a fresh open buffered channel, the received values followed by
the values still queued equal the sent values in send order; in particular
when the program drains the queue, receive order equals send order
exactly. -/
theorem buffered_fifo_order (α : Type) (N : Nat) (hN : 0 < N)
    (ops : List (ChanOp α)) (vs : List α) (t : ChanState α)
    (h : runOps (mkChan α N) ops = some (vs, t)) :
    vs ++ t.queue = sentOf ops ∧ (t.queue = [] → vs = sentOf ops) := by
  have key := runOps_queue_eq ops (mkChan α N) hN rfl vs t h
  simp only [mkChan, List.nil_append] at key
  exact ⟨key, fun hq => by simpa [hq] using key⟩

/-- Witness for C7: the spec's capacity-2 scenario (send 1, send 2,
receive, send 3, receive, receive) yields 1, 2, 3 in order. -/
theorem buffered_fifo_order_witness :
    ([1, 2, 3] : List Nat) ++ (⟨2, false, none, []⟩ : ChanState Nat).queue =
      sentOf [ChanOp.send 1, ChanOp.send 2, ChanOp.recv, ChanOp.send 3,
        ChanOp.recv, ChanOp.recv] :=
  (buffered_fifo_order Nat 2 (by decide) _ [1, 2, 3] ⟨2, false, none, []⟩
    (by decide)).1

/-! ### Lemmas on the cancellation fan-out -/

theorem get?_some_lt {α : Type} {l : List α} {n : Nat} {a : α}
    (h : l.get? n = some a) : n < l.length := by
  by_contra hn
  rw [List.get?_eq_none.2 (Nat.le_of_not_lt hn)] at h
  cases h

theorem mono_refl {ν : Type} (reason : String) (w : CtxWorld ν) :
    Mono reason w w := fun _ => Or.inl rfl

theorem mono_trans {ν : Type} {reason : String} {w1 w2 w3 : CtxWorld ν}
    (h12 : Mono reason w1 w2) (h23 : Mono reason w2 w3) : Mono reason w1 w3 := by
  intro j
  rcases h12 j with h | ⟨a, hga, hca, hma⟩
  · rcases h23 j with h2 | ⟨b, hgb, hcb, hmb⟩
    · exact Or.inl (h2.trans h)
    · exact Or.inr ⟨b, h ▸ hgb, hcb, hmb⟩
  · rcases h23 j with h2 | ⟨b, hgb, hcb, hmb⟩
    · exact Or.inr ⟨a, hga, hca, h2.trans hma⟩
    · rw [hma] at hgb
      cases hgb
      exact absurd hcb (by simp [cancelMark])

theorem mono_canceled_stays {ν : Type} {reason : String} {w w2 : CtxWorld ν}
    (h : Mono reason w w2) {j : Nat}
    (hc : CanceledWith w j reason) : CanceledWith w2 j reason := by
  obtain ⟨a, hg, hca, he⟩ := hc
  rcases h j with h2 | ⟨b, hgb, hcb, hmb⟩
  · exact ⟨a, h2.trans hg, hca, he⟩
  · rw [hg] at hgb
    cases hgb
    rw [hca] at hcb
    cases hcb

theorem mono_active_or_marked {ν : Type} {reason : String} {w w2 : CtxWorld ν}
    (h : Mono reason w w2) {j : Nat} {a : CancelData}
    (hg : w.nodes.get? j = some (.cancelNode a)) (hca : a.canceled = false) :
    w2.nodes.get? j = some (.cancelNode a) ∨
    w2.nodes.get? j = some (.cancelNode (cancelMark reason a)) := by
  rcases h j with h2 | ⟨b, hgb, hcb, hmb⟩
  · exact Or.inl (h2.trans hg)
  · rw [hg] at hgb
    cases hgb
    exact Or.inr hmb

theorem mono_isCancel {ν : Type} {reason : String} {w w2 : CtxWorld ν}
    (h : Mono reason w w2) {e : Nat} {b : CancelData}
    (hg : w.nodes.get? e = some (.cancelNode b)) :
    ∃ b2, w2.nodes.get? e = some (.cancelNode b2) := by
  rcases h e with h2 | ⟨c, hgc, _, hmc⟩
  · exact ⟨b, h2.trans hg⟩
  · exact ⟨cancelMark reason c, hmc⟩

theorem mono_length {ν : Type} {reason : String} {w w2 : CtxWorld ν}
    (h : Mono reason w w2) : w2.nodes.length = w.nodes.length := by
  apply Nat.le_antisymm
  · apply List.get?_eq_none.1
    have hend : w.nodes.get? w.nodes.length = none :=
      List.get?_eq_none.2 (le_refl _)
    rcases h w.nodes.length with heq | ⟨a, hga, -, -⟩
    · rw [heq]
      exact hend
    · rw [hend] at hga
      cases hga
  · apply List.get?_eq_none.1
    have hend : w2.nodes.get? w2.nodes.length = none :=
      List.get?_eq_none.2 (le_refl _)
    rcases h w2.nodes.length with heq | ⟨a, hga, -, hma⟩
    · rw [← heq]
      exact hend
    · rw [hend] at hma
      cases hma

theorem mono_WF {ν : Type} {reason : String} {w w2 : CtxWorld ν}
    (hwf : WF w) (h : Mono reason w w2) : WF w2 := by
  intro j a2 hg2 e he
  rcases h j with heq | ⟨a, hga, hca, hma⟩
  · have hg : w.nodes.get? j = some (.cancelNode a2) := heq ▸ hg2
    obtain ⟨hlt, b, hgb⟩ := hwf j a2 hg e he
    exact ⟨hlt, mono_isCancel h hgb⟩
  · rw [hma] at hg2
    cases hg2
    have he2 : e ∈ a.children := he
    obtain ⟨hlt, b, hgb⟩ := hwf j a hga e he2
    exact ⟨hlt, mono_isCancel h hgb⟩

theorem cancelClosed_refl {ν : Type} (reason : String) (w : CtxWorld ν) :
    CancelClosed reason w w := by
  intro j a hg hact hcanc e he hae
  obtain ⟨b, hgb, hcb, -⟩ := hcanc
  rw [hg] at hgb
  cases hgb
  rw [hact] at hcb
  cases hcb

theorem cancelClosed_comp {ν : Type} {reason : String} {w1 w2 w3 : CtxWorld ν}
    (m12 : Mono reason w1 w2) (m23 : Mono reason w2 w3)
    (c12 : CancelClosed reason w1 w2) (c23 : CancelClosed reason w2 w3) :
    CancelClosed reason w1 w3 := by
  intro j a hg hact hc3 e he hae
  rcases mono_active_or_marked m12 hg hact with h2 | h2
  · have step := c23 j a h2 hact hc3 e he
    rcases hae with ⟨b, hgb, hcb⟩
    rcases mono_active_or_marked m12 hgb hcb with h2e | h2e
    · exact step ⟨b, h2e, hcb⟩
    · exact mono_canceled_stays m23 ⟨cancelMark reason b, h2e, rfl, rfl⟩
  · have hc2 : CanceledWith w2 j reason := ⟨cancelMark reason a, h2, rfl, rfl⟩
    exact mono_canceled_stays m23 (c12 j a hg hact hc2 e he hae)

theorem wfCheck_imp_WF {ν : Type} (w : CtxWorld ν) (h : wfCheck w = true) :
    WF w := by
  intro j a hg e he
  have hj : j < w.nodes.length := get?_some_lt hg
  have hall := List.all_eq_true.1 h j (List.mem_range.2 hj)
  rw [hg] at hall
  have he2 := List.all_eq_true.1 hall e he
  rw [Bool.and_eq_true] at he2
  refine ⟨of_decide_eq_true he2.1, ?_⟩
  have hbe := he2.2
  cases hge : w.nodes.get? e with
  | none => rw [hge] at hbe; cases hbe
  | some node =>
    cases node with
    | background => rw [hge] at hbe; cases hbe
    | cancelNode b => exact ⟨b, rfl⟩
    | valueNode p k v => rw [hge] at hbe; cases hbe

theorem cancelRec_foldl_spec {ν : Type} (reason : String) (fuel : Nat)
    (IH : ∀ (w : CtxWorld ν) (id : Nat), WF w → w.nodes.length ≤ fuel + id →
      Mono reason w (cancelRec fuel w id reason) ∧
      (ActiveAt w id → CanceledWith (cancelRec fuel w id reason) id reason) ∧
      CancelClosed reason w (cancelRec fuel w id reason)) :
    ∀ (l : List Nat) (acc : CtxWorld ν), WF acc →
      (∀ e ∈ l, acc.nodes.length ≤ fuel + e) →
      Mono reason acc (l.foldl (fun a c => cancelRec fuel a c reason) acc) ∧
      CancelClosed reason acc (l.foldl (fun a c => cancelRec fuel a c reason) acc) ∧
      (∀ e ∈ l, ActiveAt acc e →
        CanceledWith (l.foldl (fun a c => cancelRec fuel a c reason) acc) e reason) := by
  intro l
  induction l with
  | nil =>
    intro acc hwf hlen
    exact ⟨mono_refl reason acc, cancelClosed_refl reason acc,
      fun e he => absurd he (List.not_mem_nil e)⟩
  | cons x xs ih =>
    intro acc hwf hlen
    obtain ⟨m1, a1, c1⟩ := IH acc x hwf (hlen x (List.mem_cons_self x xs))
    have hwf1 : WF (cancelRec fuel acc x reason) := mono_WF hwf m1
    have hlen1 : ∀ e ∈ xs, (cancelRec fuel acc x reason).nodes.length ≤ fuel + e := by
      intro e he
      rw [mono_length m1]
      exact hlen e (List.mem_cons_of_mem x he)
    obtain ⟨m2, c2, t2⟩ := ih (cancelRec fuel acc x reason) hwf1 hlen1
    rw [List.foldl_cons]
    refine ⟨mono_trans m1 m2, cancelClosed_comp m1 m2 c1 c2, ?_⟩
    intro e he hae
    rcases List.mem_cons.1 he with rfl | hexs
    · exact mono_canceled_stays m2 (a1 hae)
    · rcases hae with ⟨b, hgb, hcb⟩
      rcases mono_active_or_marked m1 hgb hcb with h1 | h1
      · exact t2 e hexs ⟨b, h1, hcb⟩
      · exact mono_canceled_stays m2 ⟨cancelMark reason b, h1, rfl, rfl⟩

theorem cancelRec_spec {ν : Type} (reason : String) :
    ∀ (fuel : Nat) (w : CtxWorld ν) (id : Nat), WF w →
      w.nodes.length ≤ fuel + id →
      Mono reason w (cancelRec fuel w id reason) ∧
      (ActiveAt w id → CanceledWith (cancelRec fuel w id reason) id reason) ∧
      CancelClosed reason w (cancelRec fuel w id reason) := by
  intro fuel
  induction fuel with
  | zero =>
    intro w id hwf hlen
    refine ⟨mono_refl reason w, ?_, cancelClosed_refl reason w⟩
    rintro ⟨a, hg, -⟩
    have := get?_some_lt hg
    omega
  | succ fuel ih =>
    intro w id hwf hlen
    cases hg : w.nodes.get? id with
    | none =>
      have heq : cancelRec (fuel + 1) w id reason = w := by
        unfold cancelRec
        rw [hg]
      rw [heq]
      refine ⟨mono_refl reason w, ?_, cancelClosed_refl reason w⟩
      rintro ⟨a, hga, -⟩
      rw [hg] at hga
      cases hga
    | some node =>
      cases node with
      | background =>
        have heq : cancelRec (fuel + 1) w id reason = w := by
          unfold cancelRec
          rw [hg]
        rw [heq]
        refine ⟨mono_refl reason w, ?_, cancelClosed_refl reason w⟩
        rintro ⟨a, hga, -⟩
        rw [hg] at hga
        cases hga
      | valueNode p k v =>
        have heq : cancelRec (fuel + 1) w id reason = w := by
          unfold cancelRec
          rw [hg]
        rw [heq]
        refine ⟨mono_refl reason w, ?_, cancelClosed_refl reason w⟩
        rintro ⟨a, hga, -⟩
        rw [hg] at hga
        cases hga
      | cancelNode a =>
        by_cases hc : a.canceled = true
        · have heq : cancelRec (fuel + 1) w id reason = w := by
            unfold cancelRec
            rw [hg]
            simp [hc]
          rw [heq]
          refine ⟨mono_refl reason w, ?_, cancelClosed_refl reason w⟩
          rintro ⟨b, hgb, hcb⟩
          rw [hg] at hgb
          cases hgb
          rw [hc] at hcb
          cases hcb
        · have hact : a.canceled = false := by
            cases hab : a.canceled with
            | false => rfl
            | true => exact absurd hab hc
          have hidlt : id < w.nodes.length := get?_some_lt hg
          have heq : cancelRec (fuel + 1) w id reason =
              a.children.foldl (fun acc c => cancelRec fuel acc c reason)
                ⟨w.nodes.set id (.cancelNode (cancelMark reason a))⟩ := by
            conv_lhs => unfold cancelRec
            rw [hg]
            simp [hact]
          have hset : (⟨w.nodes.set id (.cancelNode (cancelMark reason a))⟩ :
              CtxWorld ν).nodes.get? id = some (.cancelNode (cancelMark reason a)) :=
            List.get?_set_eq_of_lt _ hidlt
          have m0 : Mono reason w
              ⟨w.nodes.set id (.cancelNode (cancelMark reason a))⟩ := by
            intro j
            by_cases hj : id = j
            · subst hj
              exact Or.inr ⟨a, hg, hact, hset⟩
            · exact Or.inl (List.get?_set_ne _ _ hj)
          have hwf2 : WF (⟨w.nodes.set id (.cancelNode (cancelMark reason a))⟩ :
              CtxWorld ν) := mono_WF hwf m0
          have hchild : ∀ e ∈ a.children,
              (⟨w.nodes.set id (.cancelNode (cancelMark reason a))⟩ :
                CtxWorld ν).nodes.length ≤ fuel + e := by
            intro e he
            obtain ⟨hlt, -⟩ := hwf id a hg e he
            simp only [List.length_set]
            omega
          obtain ⟨mF, cF, tF⟩ := cancelRec_foldl_spec reason fuel ih a.children
            ⟨w.nodes.set id (.cancelNode (cancelMark reason a))⟩ hwf2 hchild
          rw [heq]
          refine ⟨mono_trans m0 mF, ?_, ?_⟩
          · intro _
            exact mono_canceled_stays mF ⟨cancelMark reason a, hset, rfl, rfl⟩
          · intro j b hgb hactb hcancF e he hae
            by_cases hj : id = j
            · subst hj
              rw [hg] at hgb
              cases hgb
              obtain ⟨hlt, -⟩ := hwf id a hg e he
              rcases hae with ⟨be, hge, hce⟩
              have hne : id ≠ e := by omega
              have hge2 : (⟨w.nodes.set id (.cancelNode (cancelMark reason a))⟩ :
                  CtxWorld ν).nodes.get? e = some (.cancelNode be) := by
                rw [List.get?_set_ne _ _ hne]
                exact hge
              exact tF e he ⟨be, hge2, hce⟩
            · have hgb2 : (⟨w.nodes.set id (.cancelNode (cancelMark reason a))⟩ :
                  CtxWorld ν).nodes.get? j = some (.cancelNode b) := by
                rw [List.get?_set_ne _ _ hj]
                exact hgb
              have step := cF j b hgb2 hactb hcancF e he
              rcases hae with ⟨be, hge, hce⟩
              by_cases hje : id = e
              · subst hje
                exact mono_canceled_stays mF ⟨cancelMark reason a, hset, rfl, rfl⟩
              · have hge2 : (⟨w.nodes.set id (.cancelNode (cancelMark reason a))⟩ :
                    CtxWorld ν).nodes.get? e = some (.cancelNode be) := by
                  rw [List.get?_set_ne _ _ hje]
                  exact hge
                exact step ⟨be, hge2, hce⟩

theorem ReachActive.active_head {ν : Type} {w : CtxWorld ν} {x y : Nat}
    (h : ReachActive w x y) : ActiveAt w x := by
  cases h with
  | refl j a hg hc => exact ⟨a, hg, hc⟩
  | step x e y a hg hc hm ht => exact ⟨a, hg, hc⟩

theorem ReachActive.active_last {ν : Type} {w : CtxWorld ν} {x y : Nat}
    (h : ReachActive w x y) : ActiveAt w y := by
  induction h with
  | refl j a hg hc => exact ⟨a, hg, hc⟩
  | step x e y a hg hc hm ht ih => exact ih

theorem reach_canceled {ν : Type} {reason : String} {w w2 : CtxWorld ν}
    (hm : Mono reason w w2) (hcl : CancelClosed reason w w2) :
    ∀ {x y : Nat}, ReachActive w x y →
      CanceledWith w2 x reason → CanceledWith w2 y reason := by
  intro x y h
  induction h with
  | refl j a hg hc => exact fun hx => hx
  | step x e y a hg hc hmem ht ih =>
    intro hx
    exact ih (hcl x a hg hc hx e hmem ht.active_head)

theorem ctxErr_of_canceled {ν : Type} {w : CtxWorld ν} {j : Nat} {reason : String}
    (h : CanceledWith w j reason) : ctxErr w j = .error reason := by
  obtain ⟨a, hg, hc, he⟩ := h
  have hlt : j < w.nodes.length := get?_some_lt hg
  show errRec w.nodes.length w j = .error reason
  cases hn : w.nodes.length with
  | zero => omega
  | succ n =>
    conv_lhs => unfold errRec
    rw [hg]
    simp [hc, he]

theorem cancelCtx_canceled_noop {ν : Type} {w : CtxWorld ν} {j : Nat}
    {reason : String} (h : CanceledWith w j reason) (r2 : String) :
    cancelCtx w j r2 = w := by
  obtain ⟨a, hg, hc, -⟩ := h
  have hlt : j < w.nodes.length := get?_some_lt hg
  show cancelRec w.nodes.length w j r2 = w
  cases hn : w.nodes.length with
  | zero => omega
  | succ n =>
    conv_lhs => unfold cancelRec
    rw [hg]
    simp [hc]

/-- **C6**: for `WithCancel(Background())`, `Err()` is ok before the cancel
function runs; after the first invocation it is exactly the recorded reason
`"context canceled"` on every later call; and a second invocation of the
cancel function leaves the whole context world unchanged. -/
theorem withCancel_background_err_idempotent :
    ∃ w1 : CtxWorld Nat,
      withCancel (bgWorld Nat) (some 0) = some (w1, 1) ∧
      ctxErr w1 1 = .ok () ∧
      ctxErr (cancelFn w1 1) 1 = .error "context canceled" ∧
      cancelFn (cancelFn w1 1) 1 = cancelFn w1 1 :=
  ⟨⟨[.background, .cancelNode ⟨some 0, false, "", mkChan Bool 1, [], false⟩]⟩,
    rfl, rfl, rfl, rfl⟩

/-! ### The factories only build well-formed worlds -/

theorem WF_bgWorld (ν : Type) : WF (bgWorld ν) := by
  intro j a hg e he
  match j with
  | 0 => cases hg
  | n + 1 => cases hg

theorem WF_append {ν : Type} (w : CtxWorld ν) (n : CtxNode ν)
    (hn : ∀ a, n = .cancelNode a → a.children = []) (hwf : WF w) :
    WF ⟨w.nodes ++ [n]⟩ := by
  intro j a hg e he
  by_cases hj : j < w.nodes.length
  · rw [List.get?_append hj] at hg
    obtain ⟨hlt, b, hgb⟩ := hwf j a hg e he
    have hblt : e < w.nodes.length := get?_some_lt hgb
    refine ⟨hlt, b, ?_⟩
    rw [List.get?_append hblt]
    exact hgb
  · have hflat : j < w.nodes.length + 1 := by
      have := get?_some_lt hg
      simpa using this
    have hjeq : j = w.nodes.length := by omega
    subst hjeq
    have hgn : (w.nodes ++ [n]).get? w.nodes.length = some n := by
      rw [List.get?_append_right (le_refl _)]
      simp
    rw [hgn] at hg
    cases hg
    rw [hn a rfl] at he
    cases he

theorem cancelCtx_WF {ν : Type} {w : CtxWorld ν} (hwf : WF w)
    (id : Nat) (reason : String) : WF (cancelCtx w id reason) :=
  mono_WF hwf
    (cancelRec_spec reason w.nodes.length w id hwf (Nat.le_add_right _ _)).1

theorem WF_addChild_extend {ν : Type} (w : CtxWorld ν) (p newId : Nat)
    (a : CancelData) (hwf : WF w)
    (hg : w.nodes.get? p = some (.cancelNode a)) (hp : p < newId)
    (hnew : ∃ b, w.nodes.get? newId = some (.cancelNode b)) :
    WF ⟨w.nodes.set p
      (.cancelNode { a with children := a.children ++ [newId] })⟩ := by
  have hplt : p < w.nodes.length := get?_some_lt hg
  intro j c hgc e he
  by_cases hj : p = j
  · subst hj
    rw [List.get?_set_eq_of_lt _ hplt] at hgc
    cases hgc
    rcases List.mem_append.1 he with hold | hnewm
    · obtain ⟨hlt, b, hgb⟩ := hwf p a hg e hold
      refine ⟨hlt, ?_⟩
      by_cases hep : p = e
      · omega
      · exact ⟨b, by rw [List.get?_set_ne _ _ hep]; exact hgb⟩
    · rw [List.mem_singleton] at hnewm
      subst hnewm
      obtain ⟨b, hgb⟩ := hnew
      refine ⟨hp, ?_⟩
      by_cases hep : p = e
      · omega
      · exact ⟨b, by rw [List.get?_set_ne _ _ hep]; exact hgb⟩
  · rw [List.get?_set_ne _ _ hj] at hgc
    obtain ⟨hlt, b, hgb⟩ := hwf j c hgc e he
    refine ⟨hlt, ?_⟩
    by_cases hep : p = e
    · subst hep
      rw [hg] at hgb
      cases hgb
      exact ⟨_, List.get?_set_eq_of_lt _ hplt⟩
    · exact ⟨b, by rw [List.get?_set_ne _ _ hep]; exact hgb⟩

theorem withValue_WF {ν : Type} {w w2 : CtxWorld ν} {p : Option Nat}
    {k : AnyKey} {v : ν} {id : Nat} (hwf : WF w)
    (h : withValue w p k v = some (w2, id)) : WF w2 := by
  cases p with
  | none => cases h
  | some pp =>
    simp only [withValue, Option.some.injEq, Prod.mk.injEq] at h
    rw [← h.1]
    exact WF_append w _ (fun a ha => by cases ha) hwf

theorem addChild_eq_active {ν : Type} (w : CtxWorld ν) (p cid : Nat)
    (dp : CancelData) (hg : w.nodes.get? p = some (.cancelNode dp))
    (hact : dp.canceled = false) :
    addChild w p cid =
      ⟨w.nodes.set p (.cancelNode { dp with children := dp.children ++ [cid] })⟩ := by
  unfold addChild
  rw [hg]
  simp [hact]

theorem withCancel_or_timeout_WF {ν : Type} (w : CtxWorld ν) (pp : Nat)
    (nd : CancelData) (hch : nd.children = []) (hwf : WF w) :
    WF (match w.nodes.get? pp with
        | some (.cancelNode _) =>
          addChild ⟨w.nodes ++ [.cancelNode nd]⟩ pp w.nodes.length
        | _ => (⟨w.nodes ++ [.cancelNode nd]⟩ : CtxWorld ν)) := by
  have hwf1 : WF (⟨w.nodes ++ [.cancelNode nd]⟩ : CtxWorld ν) :=
    WF_append w _ (fun a ha => by cases ha; exact hch) hwf
  cases hgp : w.nodes.get? pp with
  | none => exact hwf1
  | some node =>
    cases node with
    | background => exact hwf1
    | valueNode q k v => exact hwf1
    | cancelNode dp =>
      have hplt : pp < w.nodes.length := get?_some_lt hgp
      have hgp1 : (⟨w.nodes ++ [.cancelNode nd]⟩ : CtxWorld ν).nodes.get? pp =
          some (.cancelNode dp) := by
        rw [List.get?_append hplt]
        exact hgp
      show WF (addChild ⟨w.nodes ++ [.cancelNode nd]⟩ pp w.nodes.length)
      by_cases hc : dp.canceled = true
      · have heq : addChild (⟨w.nodes ++ [.cancelNode nd]⟩ : CtxWorld ν) pp
            w.nodes.length =
            cancelCtx ⟨w.nodes ++ [.cancelNode nd]⟩ w.nodes.length dp.err := by
          unfold addChild
          rw [hgp1]
          simp [hc]
        rw [heq]
        exact cancelCtx_WF hwf1 _ _
      · have hactp : dp.canceled = false := by
          cases hab : dp.canceled with
          | false => rfl
          | true => exact absurd hab hc
        rw [addChild_eq_active _ pp w.nodes.length dp hgp1 hactp]
        apply WF_addChild_extend _ pp w.nodes.length dp hwf1 hgp1 hplt
        refine ⟨nd, ?_⟩
        show (w.nodes ++ [CtxNode.cancelNode nd]).get? w.nodes.length = _
        rw [List.get?_append_right (le_refl _)]
        simp

theorem withCancel_WF {ν : Type} {w w2 : CtxWorld ν} {p : Option Nat}
    {id : Nat} (hwf : WF w) (h : withCancel w p = some (w2, id)) : WF w2 := by
  cases p with
  | none => cases h
  | some pp =>
    have key := withCancel_or_timeout_WF w pp
      ⟨some pp, false, "", mkChan Bool 1, [], false⟩ rfl hwf
    simp only [withCancel] at h
    cases hgp : w.nodes.get? pp with
    | none =>
      rw [hgp] at h key
      cases h
      exact key
    | some node =>
      cases node with
      | background =>
        rw [hgp] at h key
        cases h
        exact key
      | valueNode q k v =>
        rw [hgp] at h key
        cases h
        exact key
      | cancelNode dp =>
        rw [hgp] at h key
        cases h
        exact key

theorem withTimeout_WF {ν : Type} {w w2 : CtxWorld ν} {p : Option Nat}
    {id : Nat} (hwf : WF w) (h : withTimeout w p = some (w2, id)) : WF w2 := by
  cases p with
  | none => cases h
  | some pp =>
    have key := withCancel_or_timeout_WF w pp
      ⟨some pp, false, "", mkChan Bool 1, [], true⟩ rfl hwf
    simp only [withTimeout] at h
    cases hgp : w.nodes.get? pp with
    | none =>
      rw [hgp] at h key
      cases h
      exact key
    | some node =>
      cases node with
      | background =>
        rw [hgp] at h key
        cases h
        exact key
      | valueNode q k v =>
        rw [hgp] at h key
        cases h
        exact key
      | cancelNode dp =>
        rw [hgp] at h key
        cases h
        exact key

/-- Factory `WithCancel` on a live Cancel/Timer parent registers the new
node in the parent's children list (giving one `ReachActive` step), and the
new node starts Active. -/
theorem withCancel_registers {ν : Type} (w : CtxWorld ν) (p : Nat)
    (dp : CancelData) (hg : w.nodes.get? p = some (.cancelNode dp))
    (hact : dp.canceled = false) :
    ∃ w2, withCancel w (some p) = some (w2, w.nodes.length) ∧
      w2.nodes.get? p =
        some (.cancelNode { dp with children := dp.children ++ [w.nodes.length] }) ∧
      ActiveAt w2 w.nodes.length := by
  have hplt : p < w.nodes.length := get?_some_lt hg
  have hgp1 : (⟨w.nodes ++
      [CtxNode.cancelNode ⟨some p, false, "", mkChan Bool 1, [], false⟩]⟩ :
      CtxWorld ν).nodes.get? p = some (.cancelNode dp) := by
    show (w.nodes ++ [CtxNode.cancelNode ⟨some p, false, "", mkChan Bool 1, [],
      false⟩]).get? p = some (.cancelNode dp)
    rw [List.get?_append hplt]
    exact hg
  have hplt1 : p < (w.nodes ++
      [CtxNode.cancelNode ⟨some p, false, "", mkChan Bool 1, [], false⟩]).length := by
    simpa using Nat.lt_succ_of_lt hplt
  refine ⟨⟨(w.nodes ++
      [CtxNode.cancelNode ⟨some p, false, "", mkChan Bool 1, [], false⟩]).set p
      (.cancelNode { dp with children := dp.children ++ [w.nodes.length] })⟩,
    ?_, ?_, ?_⟩
  · simp only [withCancel, hg]
    rw [addChild_eq_active _ p w.nodes.length dp hgp1 hact]
  · show ((w.nodes ++ [CtxNode.cancelNode ⟨some p, false, "", mkChan Bool 1, [],
      false⟩]).set p
      (.cancelNode { dp with children := dp.children ++ [w.nodes.length] })).get? p = _
    rw [List.get?_set_eq_of_lt _ hplt1]
  · refine ⟨⟨some p, false, "", mkChan Bool 1, [], false⟩, ?_, rfl⟩
    have hne : p ≠ w.nodes.length := by omega
    show ((w.nodes ++ [CtxNode.cancelNode ⟨some p, false, "", mkChan Bool 1, [],
      false⟩]).set p
      (.cancelNode { dp with children := dp.children ++ [w.nodes.length] })).get?
      w.nodes.length = _
    rw [List.get?_set_ne _ _ hne, List.get?_append_right (le_refl _)]
    simp

/-- Factory `WithTimeout`/`WithDeadline` on a live Cancel/Timer parent
registers the new Timer node exactly like `WithCancel` does. -/
theorem withTimeout_registers {ν : Type} (w : CtxWorld ν) (p : Nat)
    (dp : CancelData) (hg : w.nodes.get? p = some (.cancelNode dp))
    (hact : dp.canceled = false) :
    ∃ w2, withTimeout w (some p) = some (w2, w.nodes.length) ∧
      w2.nodes.get? p =
        some (.cancelNode { dp with children := dp.children ++ [w.nodes.length] }) ∧
      ActiveAt w2 w.nodes.length := by
  have hplt : p < w.nodes.length := get?_some_lt hg
  have hgp1 : (⟨w.nodes ++
      [CtxNode.cancelNode ⟨some p, false, "", mkChan Bool 1, [], true⟩]⟩ :
      CtxWorld ν).nodes.get? p = some (.cancelNode dp) := by
    show (w.nodes ++ [CtxNode.cancelNode ⟨some p, false, "", mkChan Bool 1, [],
      true⟩]).get? p = some (.cancelNode dp)
    rw [List.get?_append hplt]
    exact hg
  have hplt1 : p < (w.nodes ++
      [CtxNode.cancelNode ⟨some p, false, "", mkChan Bool 1, [], true⟩]).length := by
    simpa using Nat.lt_succ_of_lt hplt
  refine ⟨⟨(w.nodes ++
      [CtxNode.cancelNode ⟨some p, false, "", mkChan Bool 1, [], true⟩]).set p
      (.cancelNode { dp with children := dp.children ++ [w.nodes.length] })⟩,
    ?_, ?_, ?_⟩
  · simp only [withTimeout, hg]
    rw [addChild_eq_active _ p w.nodes.length dp hgp1 hact]
  · show ((w.nodes ++ [CtxNode.cancelNode ⟨some p, false, "", mkChan Bool 1, [],
      true⟩]).set p
      (.cancelNode { dp with children := dp.children ++ [w.nodes.length] })).get? p = _
    rw [List.get?_set_eq_of_lt _ hplt1]
  · refine ⟨⟨some p, false, "", mkChan Bool 1, [], true⟩, ?_, rfl⟩
    have hne : p ≠ w.nodes.length := by omega
    show ((w.nodes ++ [CtxNode.cancelNode ⟨some p, false, "", mkChan Bool 1, [],
      true⟩]).set p
      (.cancelNode { dp with children := dp.children ++ [w.nodes.length] })).get?
      w.nodes.length = _
    rw [List.get?_set_ne _ _ hne, List.get?_append_right (le_refl _)]
    simp

/-- **C1 (amended)**: for every well-formed context world, every Active
cancel node c, and every live context d reachable from c through the
registered children links — i.e. every d derived from c via `WithCancel` or
`WithTimeout` whose construction-time parent is itself a Cancel/Timer node,
at any depth and fan-out (an intervening `WithValue` node breaks the chain;
see the counterexample) — invoking c's `Cancel(reason)` transitions c from
Active to Canceled exactly once, records the reason, closes c's done
channel, and synchronously cancels d the same way with the same reason, so
`d.Err()` reports that reason; canceling c again afterwards, with any
reason, changes nothing. -/
theorem cancel_fanout_reachable (ν : Type) (w : CtxWorld ν) (c d : Nat)
    (reason : String) (hwf : WF w) (hreach : ReachActive w c d) :
    (∃ a, w.nodes.get? c = some (.cancelNode a) ∧ a.canceled = false ∧
      (cancelCtx w c reason).nodes.get? c =
        some (.cancelNode (cancelMark reason a))) ∧
    (∃ b, w.nodes.get? d = some (.cancelNode b) ∧ b.canceled = false ∧
      (cancelCtx w c reason).nodes.get? d =
        some (.cancelNode (cancelMark reason b))) ∧
    ctxErr (cancelCtx w c reason) c = .error reason ∧
    ctxErr (cancelCtx w c reason) d = .error reason ∧
    (∀ r2, cancelCtx (cancelCtx w c reason) c r2 = cancelCtx w c reason) := by
  obtain ⟨hmono, hA, hcl⟩ := cancelRec_spec reason w.nodes.length w c hwf
    (Nat.le_add_right _ _)
  have hmono2 : Mono reason w (cancelCtx w c reason) := hmono
  have hcl2 : CancelClosed reason w (cancelCtx w c reason) := hcl
  obtain ⟨a, hga, hca⟩ := hreach.active_head
  have hcc : CanceledWith (cancelCtx w c reason) c reason := hA ⟨a, hga, hca⟩
  have hcd : CanceledWith (cancelCtx w c reason) d reason :=
    reach_canceled hmono2 hcl2 hreach hcc
  obtain ⟨b, hgb, hcb⟩ := hreach.active_last
  have hfullc : (cancelCtx w c reason).nodes.get? c =
      some (.cancelNode (cancelMark reason a)) := by
    rcases mono_active_or_marked hmono2 hga hca with h | h
    · obtain ⟨x, hgx, hcx, -⟩ := hcc
      rw [h] at hgx
      cases hgx
      rw [hca] at hcx
      cases hcx
    · exact h
  have hfulld : (cancelCtx w c reason).nodes.get? d =
      some (.cancelNode (cancelMark reason b)) := by
    rcases mono_active_or_marked hmono2 hgb hcb with h | h
    · obtain ⟨x, hgx, hcx, -⟩ := hcd
      rw [h] at hgx
      cases hgx
      rw [hcb] at hcx
      cases hcx
    · exact h
  exact ⟨⟨a, hga, hca, hfullc⟩, ⟨b, hgb, hcb, hfulld⟩,
    ctxErr_of_canceled hcc, ctxErr_of_canceled hcd,
    fun r2 => cancelCtx_canceled_noop hcc r2⟩

/-- Witness for the amended C1: in the factory-built world `deepChain`
(c = 1 with the depth-two registered chain 1 → 2 → 3 and timer child 4),
canceling c with the `CancelFunc` default reason makes both c's and the
grandchild's `Err()` report it, and a second cancel is a no-op. -/
theorem cancel_fanout_reachable_witness :
    deepChain = some (deepWorld, 1, 3) ∧
    ctxErr (cancelCtx deepWorld 1 "context canceled") 1 =
      .error "context canceled" ∧
    ctxErr (cancelCtx deepWorld 1 "context canceled") 3 =
      .error "context canceled" ∧
    (∀ r2, cancelCtx (cancelCtx deepWorld 1 "context canceled") 1 r2 =
      cancelCtx deepWorld 1 "context canceled") := by
  have h := cancel_fanout_reachable Nat deepWorld 1 3 "context canceled"
    (wfCheck_imp_WF deepWorld (by decide))
    (ReachActive.step 1 2 3 ⟨some 0, false, "", mkChan Bool 1, [2, 4], false⟩
      rfl rfl (by decide)
      (ReachActive.step 2 3 3 ⟨some 1, false, "", mkChan Bool 1, [3], false⟩
        rfl rfl (by decide)
        (ReachActive.refl 3 ⟨some 2, false, "", mkChan Bool 1, [], false⟩
          rfl rfl)))
  exact ⟨rfl, h.2.2.1, h.2.2.2.1, h.2.2.2.2⟩

/-- Counterexample to **C1** as stated: in the chain `Background` → c
(`WithCancel`) → `WithValue` node → d (`WithCancel`), canceling c records
its own reason but leaves d Active — `WithCancel` registers the new node
only when its *direct* parent dynamic-casts to `CancelContext`, and the
intervening `ValueContext` does not — so `d.Err()` stays ok instead of
reporting the reason. -/
theorem cancel_fanout_value_gap_counterexample :
    ∃ w3 : CtxWorld Nat,
      valueGapChain = some (w3, 1, 3) ∧
      ctxErr (cancelFn w3 1) 1 = .error "context canceled" ∧
      ctxErr (cancelFn w3 1) 3 = .ok () ∧
      ctxErr (cancelFn w3 1) 3 ≠ .error "context canceled" :=
  ⟨⟨[.background,
     .cancelNode ⟨some 0, false, "", mkChan Bool 1, [], false⟩,
     .valueNode (some 1) (.str "k") 7,
     .cancelNode ⟨some 2, false, "", mkChan Bool 1, [], false⟩]⟩,
    rfl, rfl, rfl, fun h => Except.noConfusion h⟩

theorem keyMatches_eq_true_iff (a b : AnyKey) :
    keyMatches a b = true ↔ a = b ∧ supportedKey a = true := by
  cases a <;> cases b <;> simp [keyMatches, supportedKey]

/-- Counterexample to **C8** as stated: for a key whose runtime type is none
of the three `ValueContext::Value` can compare (here the opaque `other`
kind), looking up the very key stored in `WithValue(Background, k, 5)`
falls through to the parent and reports `"key not found"` instead of
returning 5. -/
theorem value_lookup_other_key_counterexample :
    ctxValue (Ctx.valueCtx (some Ctx.background) (AnyKey.other 0 0) (5 : Nat))
      (AnyKey.other 0 0) = .error "key not found" ∧
    ctxValue (Ctx.valueCtx (some Ctx.background) (AnyKey.other 0 0) (5 : Nat))
      (AnyKey.other 0 0) ≠ .ok 5 :=
  ⟨rfl, fun h => Except.noConfusion h⟩

/-- **C8 (amended)**: for v = `WithValue(parent, k, val)` where k has one of
the runtime types the lookup can compare (`std::string`, `int`,
`const char*`), `v.Value(k)` returns val; for every key k2 ≠ k the lookup
delegates to the parent's result; and a lookup reaching the root
(`Background`) yields the explicit `"key not found"` failure. -/
theorem with_value_lookup (ν : Type) (parent : Ctx ν) (k : AnyKey) (v : ν)
    (hk : supportedKey k = true) :
    ctxValue (.valueCtx (some parent) k v) k = .ok v
  ∧ (∀ k2, k2 ≠ k →
      ctxValue (.valueCtx (some parent) k v) k2 = ctxValue parent k2)
  ∧ (∀ k2, ctxValue (Ctx.background : Ctx ν) k2 = .error "key not found") := by
  refine ⟨?_, ?_, ?_⟩
  · have hm : keyMatches k k = true := (keyMatches_eq_true_iff k k).2 ⟨rfl, hk⟩
    simp [ctxValue, hm]
  · intro k2 hne
    have hm : keyMatches k k2 = false := by
      rw [Bool.eq_false_iff]
      intro hmm
      exact hne ((keyMatches_eq_true_iff k k2).1 hmm).1.symm
    simp [ctxValue, hm]
  · intro k2
    rfl

/-- Witness for the amended C8 on a string key. -/
theorem with_value_lookup_witness :
    ctxValue (Ctx.valueCtx (some Ctx.background) (AnyKey.str "k") (5 : Nat))
      (AnyKey.str "k") = .ok 5 :=
  (with_value_lookup Nat Ctx.background (AnyKey.str "k") 5 rfl).1

end Gocxx
